import Mathlib

/-!
Shallow embedding of the fleet fuel-logging application's identity
resolution, authorization, account-lifecycle and aggregation code.

JavaScript strings are modelled as `List Char`; numeric amounts
(`fuel_liters`, `odometer_reading`) as rationals; `filling_date` and
`created_at` as the numeric timestamps the code compares them by
(`new Date(s).getTime()`).  Fallible external stores are modelled by
explicit state passing, with environment-chosen failures passed in as
boolean oracles.
-/

/-- JavaScript string, modelled as its list of characters. -/
abbrev Str := List Char

/-- Coerce a Lean string literal to the model type. -/
def ofStr (s : String) : Str := s.data

/-- `String.prototype.toUpperCase`, per character. -/
def toUpperStr (s : Str) : Str := s.map Char.toUpper

/-- `String.prototype.toLowerCase`, per character. -/
def toLowerStr (s : Str) : Str := s.map Char.toLower

/-- Whitespace as trimmed by `String.prototype.trim`. -/
def isSpaceChar (c : Char) : Bool :=
  c = ' ' || c = '\t' || c = '\n' || c = '\r'

/-- `String.prototype.trim`: strip leading and trailing whitespace. -/
def trimStr (s : Str) : Str :=
  ((s.dropWhile isSpaceChar).reverse.dropWhile isSpaceChar).reverse

/-- `String.prototype.split(',')`.  `"".split(',')` is `[""]` and empty
fields between consecutive commas are kept, as in JavaScript. -/
def splitOnComma : Str → List Str
  | [] => [[]]
  | c :: rest =>
    if c = ',' then [] :: splitOnComma rest
    else
      match splitOnComma rest with
      | [] => [[c]]
      | t :: ts => (c :: t) :: ts

/-- Code-point lexicographic string comparison, the order
`localeCompare` induces on the plain ASCII plate identifiers used
here. -/
def strLt : Str → Str → Bool
  | [], [] => false
  | [], _ :: _ => true
  | _ :: _, [] => false
  | c :: s, d :: t =>
    if c < d then true
    else if d < c then false
    else strLt s t

/-- The `/^\d{4}$/` test applied to passcodes. -/
def isFourDigits (s : Str) : Bool :=
  s.length = 4 && s.all Char.isDigit

/-- Account role, the `role` column of `app_users`. -/
inductive Role
  | admin
  | user
deriving DecidableEq

/-- A row of the `app_users` directory as read by the login form and
the passcode endpoint. -/
structure Account where
  id : Nat
  email : Str
  fullName : Str
  role : Role
  assignedVehicles : List Str
deriving DecidableEq

/-- The credential store: Supabase Auth password entries, one
`(email, secret)` pair per identity. -/
abbrev CredStore := List (Str × Str)

/-- `signInWithPassword(email, code)` outcome: true iff the store holds
that exact pair. -/
def verifyCred (creds : CredStore) (email code : Str) : Bool :=
  creds.any (fun p => p.1 == email && p.2 == code)

/-- Errors surfaced by the login form's `handleSignIn`. -/
inductive SignInError
  | plateRequired
  | codeLength
  | noUsersFound
  | vehicleNotAssigned
  | invalidPasscode
deriving DecidableEq

/-- Result of `handleSignIn`. -/
inductive SignInResult
  | ok (a : Account)
  | err (e : SignInError)
deriving DecidableEq

/-- Candidate set of a login attempt: role=user accounts whose assigned
vehicle list contains the normalized plate. -/
def signInCandidates (dir : List Account) (plateUpper : Str) : List Account :=
  (dir.filter (fun a => a.role == Role.user)).filter
    (fun a => a.assignedVehicles.contains plateUpper)

/-- `handleSignIn` from the login form (`LoginForm`): validates the
plate and code, fetches role=user accounts, picks the account returned
by `users.find(u => u.assigned_vehicles.includes(plateUpper))` and
attempts `signIn` with that account's email and the entered code.  The
second component counts credential-store verification calls. -/
def handleSignIn (dir : List Account) (creds : CredStore)
    (plateNumber enteredCode : Str) : SignInResult × Nat :=
  if trimStr plateNumber = [] then (.err .plateRequired, 0)
  else if enteredCode.length ≠ 4 then (.err .codeLength, 0)
  else
    let plateUpper := toUpperStr (trimStr plateNumber)
    let users := dir.filter (fun a => a.role == Role.user)
    if users = [] then (.err .noUsersFound, 0)
    else
      match users.find? (fun a => a.assignedVehicles.contains plateUpper) with
      | none => (.err .vehicleNotAssigned, 0)
      | some matchedUser =>
        if verifyCred creds matchedUser.email enteredCode then
          (.ok matchedUser, 1)
        else (.err .invalidPasscode, 1)

/-- The record-write gate of `FuelForm.handleSubmit`: when the account
has a non-empty `assigned_vehicles` list, the uppercased plate must be
a member; otherwise the write is allowed.  The account's role is not
consulted. -/
def canWriteRecord (a : Account) (plateNumber : Str) : Bool :=
  if a.assignedVehicles.length > 0 then
    a.assignedVehicles.contains (toUpperStr plateNumber)
  else true

/-- A Supabase Auth user: the credential-store side of an identity. -/
structure AuthUser where
  id : Nat
  email : Str
  password : Str
deriving DecidableEq

/-- An `app_users` row as written by the admin `create-user` action. -/
structure AppUser where
  id : Nat
  email : Str
  fullName : Str
  role : Role
  assignedVehicles : List Str
  createdBy : Nat
deriving DecidableEq

/-- Combined state of the two stores behind the admin edge function:
Supabase Auth (credentials) and the `app_users` table, plus the next
fresh identity the auth store will mint. -/
structure ServerState where
  auth : List AuthUser
  app : List AppUser
  nextId : Nat
deriving DecidableEq

/-- Errors returned by the `create-user` action. -/
inductive CreateError
  | invalidPasscodeFormat
  | duplicateAccount
  | authCreateFailed
  | insertFailed
deriving DecidableEq

/-- `assignedVehicles.split(',').map(v => v.trim().toUpperCase())
.filter(v => v.length > 0)` from the `create-user` action. -/
def vehiclesArray (csv : Str) : List Str :=
  ((splitOnComma csv).map (fun v => toUpperStr (trimStr v))).filter
    (fun v => v.length > 0)

/-- Parsing pipeline as the specification describes it: a
deduplicated, trimmed, uppercased set of identifiers with empty
entries discarded.  Written from the spec's words, to be compared with
`vehiclesArray`. -/
def specVehicleSet (csv : Str) : List Str :=
  (((splitOnComma csv).map (fun v => toUpperStr (trimStr v))).filter
    (fun v => v.length > 0)).dedup

/-- `upsert` on `app_users` with `onConflict: 'id'`: replace the row
with the same id if one exists, otherwise append. -/
def upsertById (rows : List AppUser) (row : AppUser) : List AppUser :=
  if rows.any (fun r => r.id == row.id) then
    rows.map (fun r => if r.id == row.id then row else r)
  else rows ++ [row]

/-- The `create-user` branch of the admin edge function, run after the
caller's admin check passed.  `callerId` is the authenticated admin's
id (stored as `created_by`); `insertOk` is the environment's verdict on
the `app_users` upsert.  Auth-user creation fails when the auth store
already holds the email; on insert failure the just-created auth user
is deleted before the error is returned. -/
def createUser (s : ServerState) (callerId : Nat)
    (email password fullName vehicleCsv : Str) (insertOk : Bool) :
    Except CreateError Unit × ServerState :=
  if ¬ isFourDigits password then (.error .invalidPasscodeFormat, s)
  else if (s.app.find? (fun u => u.email == toLowerStr email)).isSome then
    (.error .duplicateAccount, s)
  else if (s.auth.find? (fun u => u.email == toLowerStr email)).isSome then
    (.error .authCreateFailed, s)
  else if insertOk then
    (.ok (),
      ⟨s.auth ++ [(⟨s.nextId, toLowerStr email, password⟩ : AuthUser)],
        upsertById s.app
          ⟨s.nextId, toLowerStr email, fullName, Role.user,
            vehiclesArray vehicleCsv, callerId⟩,
        s.nextId + 1⟩)
  else
    (.error .insertFailed,
      ⟨(s.auth ++ [(⟨s.nextId, toLowerStr email, password⟩ : AuthUser)]).filter
          (fun u => u.id ≠ s.nextId),
        s.app, s.nextId + 1⟩)

deriving instance DecidableEq for Except

/-- The admin accounts currently in the directory. -/
def adminAccounts (s : ServerState) : List AppUser :=
  s.app.filter (fun u => u.role == Role.admin)

/-- Result of the `auth-with-passcode` endpoint. -/
inductive AuthPassResult
  | badPasscodeFormat
  | plateMissing
  | noUsers
  | invalidPasscode
  | ok (email fullName : Str)
deriving DecidableEq

/-- The `auth-with-passcode` edge function: validates the passcode
format and the presence of a non-empty plate number, fetches all
role=user accounts, and tries `signInWithPassword` for each in turn,
stopping at the first success.  The plate number is never consulted
after its presence check. -/
def authWithPasscode (dir : List Account) (creds : CredStore)
    (passcode plateNumber : Str) : AuthPassResult :=
  if ¬ isFourDigits passcode then .badPasscodeFormat
  else if trimStr plateNumber = [] then .plateMissing
  else
    let users := dir.filter (fun a => a.role == Role.user)
    if users = [] then .noUsers
    else
      match users.find? (fun u => verifyCred creds u.email passcode) with
      | none => .invalidPasscode
      | some u => .ok u.email u.fullName

/-- A row of `fuel_records` as read by the admin panel. -/
structure FuelRecord where
  id : Nat
  plate : Str
  fillingDate : Nat
  liters : ℚ
  odometer : Option ℚ
  createdAt : Nat
deriving DecidableEq

/-- One element of the admin panel's grouped view. -/
structure GroupedRecord where
  plate : Str
  records : List FuelRecord
  totalFuel : ℚ
  averageFuel : ℚ
  recordCount : Nat
  latestOdometer : Option ℚ
  firstOdometer : Option ℚ
deriving DecidableEq

/-- Stable insertion step: `x` goes in front of the first element `y`
with `lt x y`, skipping earlier and equal keys. -/
def insertSorted {α : Type} (lt : α → α → Bool) (x : α) : List α → List α
  | [] => [x]
  | y :: ys => if lt x y then x :: y :: ys else y :: insertSorted lt x ys

/-- Stable sort by a strict comparator, modelling
`Array.prototype.sort` with a consistent comparison function (stable
per the ECMAScript specification). -/
def stableSort {α : Type} (lt : α → α → Bool) (l : List α) : List α :=
  l.foldl (fun acc x => insertSorted lt x acc) []

/-- `Math.max(...xs)` over a non-empty spread, `undefined` otherwise. -/
def listMax : List ℚ → Option ℚ
  | [] => none
  | x :: xs => some (xs.foldl max x)

/-- `Math.min(...xs)` over a non-empty spread, `undefined` otherwise. -/
def listMin : List ℚ → Option ℚ
  | [] => none
  | x :: xs => some (xs.foldl min x)

/-- One step of the `records.reduce` that groups records into an
object keyed by plate: append to the existing entry or create a new
key (object keys keep first-insertion order, as `Object.entries`
iterates them). -/
def addToGroups (acc : List (Str × List FuelRecord)) (r : FuelRecord) :
    List (Str × List FuelRecord) :=
  if acc.any (fun g => g.1 == r.plate) then
    acc.map (fun g => if g.1 == r.plate then (g.1, g.2 ++ [r]) else g)
  else acc ++ [(r.plate, [r])]

/-- The grouping `reduce` of `groupRecordsByPlate`, as an association
list in key-insertion order. -/
def groupPairs (rs : List FuelRecord) : List (Str × List FuelRecord) :=
  rs.foldl addToGroups []

/-- The body of the `Object.entries(grouped).map(...)` callback:
totals, average, date-descending sort, and odometer extrema for one
plate's records. -/
def mkGroup (p : Str) (rs : List FuelRecord) : GroupedRecord :=
  { plate := p
    records := stableSort (fun a b => b.fillingDate < a.fillingDate) rs
    totalFuel := rs.foldl (fun sum r => sum + r.liters) 0
    averageFuel := (rs.foldl (fun sum r => sum + r.liters) 0) / (rs.length : ℚ)
    recordCount := rs.length
    latestOdometer := listMax
      ((stableSort (fun a b => b.fillingDate < a.fillingDate) rs).filterMap
        (fun r => r.odometer))
    firstOdometer := listMin
      ((stableSort (fun a b => b.fillingDate < a.fillingDate) rs).filterMap
        (fun r => r.odometer)) }

/-- `groupRecordsByPlate` from the admin panel: group by plate, build
each summary, and sort the summaries ascending by plate. -/
def groupRecordsByPlate (rs : List FuelRecord) : List GroupedRecord :=
  stableSort (fun a b => strLt a.plate b.plate)
    ((groupPairs rs).map (fun g => mkGroup g.1 g.2))

/-- First-occurrence deduplication, the order in which a JavaScript
object accumulates keys. -/
def dedupFirst (l : List Str) : List Str :=
  l.foldl (fun acc p => if acc.contains p then acc else acc ++ [p]) []

/-- Admin account with a non-empty assignment that misses plate B-2. -/
def adminScoped : Account :=
  ⟨9, ofStr "adm@x.com", ofStr "Adm", Role.admin, [ofStr "A-1"]⟩

/-- role=user account assigned vehicle V-1, credential 0000. -/
def userOne : Account :=
  ⟨1, ofStr "a@x.com", ofStr "Aa", Role.user, [ofStr "V-1"]⟩

/-- Second role=user account also assigned V-1, credential 1234. -/
def userTwo : Account :=
  ⟨2, ofStr "b@x.com", ofStr "Bb", Role.user, [ofStr "V-1"]⟩

/-- Credential store holding only userTwo's passcode 1234. -/
def credsTwo : CredStore := [(ofStr "b@x.com", ofStr "1234")]

/-- Empty server state for lifecycle scenarios. -/
def emptyServer : ServerState := ⟨[], [], 0⟩

/-- Server state after one successful createUser on `emptyServer`. -/
def serverAfterFirst : ServerState :=
  ⟨[⟨0, ofStr "x@y.com", ofStr "1234"⟩],
    [⟨0, ofStr "x@y.com", ofStr "N", Role.user, [ofStr "V-1"], 7⟩], 1⟩

/-- Two records of plate A sharing the same fill date (a tie). -/
def recTieOne : FuelRecord := ⟨1, ofStr "A", 5, 10, none, 1⟩

/-- The second tied record of plate A. -/
def recTieTwo : FuelRecord := ⟨2, ofStr "A", 5, 20, some 7, 2⟩

/-- Plate A record, fill date 5. -/
def recA1 : FuelRecord := ⟨1, ofStr "A", 5, 10, none, 1⟩

/-- Plate A record, fill date 9. -/
def recA2 : FuelRecord := ⟨2, ofStr "A", 9, 20, some 7, 2⟩

/-- Plate B record. -/
def recB : FuelRecord := ⟨3, ofStr "B", 4, 5, none, 3⟩

/-- For every Bool predicate, `find?` returns the head of the filtered
list. -/
theorem find?_eq_head?_filter {α : Type} (p : α → Bool) (l : List α) :
    l.find? p = (l.filter p).head? := by
  induction l with
  | nil => rfl
  | cons x xs ih =>
    cases h : p x with
    | true => rw [List.find?_cons_of_pos _ h, List.filter_cons_of_pos h]; rfl
    | false =>
      rw [List.find?_cons_of_neg _ (by simp [h]),
        List.filter_cons_of_neg (by simp [h]), ih]

/-- C2: the claim that `canWriteRecord` is unconditionally true for
admins fails on the code: the gate never consults the role, so an
admin scoped to A-1 is denied a write for B-2. -/
theorem c2_counterexample :
    adminScoped.role = Role.admin ∧
      canWriteRecord adminScoped (ofStr "B-2") = false := by decide

/-- C2 (amended): the write gate ignores the role; an admin is
permitted exactly when the assignment list is empty or contains the
uppercased plate. -/
theorem c2_admin_write_gate (a : Account) (v : Str)
    (_hrole : a.role = Role.admin) :
    canWriteRecord a v =
      (a.assignedVehicles.isEmpty ||
        a.assignedVehicles.contains (toUpperStr v)) := by
  unfold canWriteRecord
  cases hA : a.assignedVehicles <;> simp [hA]

/-- Witness for the amended C2 at a concrete admin and plate. -/
theorem c2_admin_write_gate_witness :
    adminScoped.role = Role.admin ∧
      canWriteRecord adminScoped (ofStr "B-2") =
        (adminScoped.assignedVehicles.isEmpty ||
          adminScoped.assignedVehicles.contains (toUpperStr (ofStr "B-2"))) :=
  ⟨by decide, c2_admin_write_gate adminScoped (ofStr "B-2") (by decide)⟩

/-- C5: for a role=user account the write gate permits every plate
when the assignment list is empty, and otherwise permits exactly the
plates whose uppercased form is assigned. -/
theorem c5_user_write_gate (a : Account) (v : Str)
    (_hrole : a.role = Role.user) :
    (a.assignedVehicles = [] → canWriteRecord a v = true) ∧
      (a.assignedVehicles ≠ [] →
        (canWriteRecord a v = true ↔ toUpperStr v ∈ a.assignedVehicles)) := by
  constructor
  · intro hA
    simp [canWriteRecord, hA]
  · intro hA
    cases hB : a.assignedVehicles with
    | nil => exact absurd hB hA
    | cons x xs =>
      simp [canWriteRecord, hB, List.contains, List.elem_iff]

/-- Witness for C5 at a concrete user account and plate. -/
theorem c5_user_write_gate_witness :
    userOne.role = Role.user ∧
      ((userOne.assignedVehicles = [] →
          canWriteRecord userOne (ofStr "v-1") = true) ∧
        (userOne.assignedVehicles ≠ [] →
          (canWriteRecord userOne (ofStr "v-1") = true ↔
            toUpperStr (ofStr "v-1") ∈ userOne.assignedVehicles))) :=
  ⟨by decide, c5_user_write_gate userOne (ofStr "v-1") (by decide)⟩

/-- C8: the claim that the stored vehicle collection is deduplicated
fails on the code: a CSV listing the same plate twice stores it
twice. -/
theorem c8_counterexample :
    vehiclesArray (ofStr "abc-1, ABC-1") ≠
        specVehicleSet (ofStr "abc-1, ABC-1") ∧
      (vehiclesArray (ofStr "abc-1, ABC-1")).count (ofStr "ABC-1") = 2 := by
  decide

/-- C8 (amended): the stored collection is the split, trimmed,
uppercased, empty-discarded list with duplicates retained: it has the
same members as the deduplicated set the spec describes, but each
non-empty identifier keeps its full multiplicity from the CSV. -/
theorem c8_vehicles_no_dedup (csv p : Str) (hp : p ≠ []) :
    (p ∈ vehiclesArray csv ↔ p ∈ specVehicleSet csv) ∧
      (vehiclesArray csv).count p =
        ((splitOnComma csv).map (fun v => toUpperStr (trimStr v))).count p := by
  constructor
  · unfold specVehicleSet vehiclesArray
    exact (List.mem_dedup).symm
  · unfold vehiclesArray
    refine List.count_filter ?_
    have : 0 < p.length := List.length_pos.mpr hp
    simp [this]

/-- Witness for the amended C8 at the duplicated CSV. -/
theorem c8_vehicles_no_dedup_witness :
    ofStr "ABC-1" ≠ [] ∧
      ((ofStr "ABC-1" ∈ vehiclesArray (ofStr "abc-1, ABC-1") ↔
          ofStr "ABC-1" ∈ specVehicleSet (ofStr "abc-1, ABC-1")) ∧
        (vehiclesArray (ofStr "abc-1, ABC-1")).count (ofStr "ABC-1") =
          ((splitOnComma (ofStr "abc-1, ABC-1")).map
              (fun v => toUpperStr (trimStr v))).count (ofStr "ABC-1")) :=
  ⟨by decide, c8_vehicles_no_dedup (ofStr "abc-1, ABC-1") (ofStr "ABC-1")
    (by decide)⟩

/-- C9: the passcode endpoint's reply does not depend on which
non-empty plate number was sent: with the same stores and passcode,
any two present plates give the same matched account or failure. -/
theorem c9_plate_independent (dir : List Account) (creds : CredStore)
    (passcode p1 p2 : Str)
    (h1 : trimStr p1 ≠ []) (h2 : trimStr p2 ≠ []) :
    authWithPasscode dir creds passcode p1 =
      authWithPasscode dir creds passcode p2 := by
  unfold authWithPasscode
  simp [h1, h2]

/-- Witness for C9: two different plates, same answer. -/
theorem c9_plate_independent_witness :
    trimStr (ofStr "AA-1") ≠ [] ∧ trimStr (ofStr "ZZ-9") ≠ [] ∧
      authWithPasscode [userOne, userTwo] credsTwo (ofStr "1234")
          (ofStr "AA-1") =
        authWithPasscode [userOne, userTwo] credsTwo (ofStr "1234")
          (ofStr "ZZ-9") :=
  ⟨by decide, by decide,
    c9_plate_independent [userOne, userTwo] credsTwo (ofStr "1234")
      (ofStr "AA-1") (ofStr "ZZ-9") (by decide) (by decide)⟩

/-- C1: the claim that the resolver accepts the first candidate whose
credential verifies fails on the code: with two candidates for V-1
where only the second verifies, the sign-in fails with an invalid
passcode instead of succeeding with the second candidate. -/
theorem c1_counterexample :
    signInCandidates [userOne, userTwo]
        (toUpperStr (trimStr (ofStr "v-1"))) = [userOne, userTwo] ∧
      verifyCred credsTwo userOne.email (ofStr "1234") = false ∧
      verifyCred credsTwo userTwo.email (ofStr "1234") = true ∧
      handleSignIn [userOne, userTwo] credsTwo (ofStr "v-1") (ofStr "1234") =
        (.err .invalidPasscode, 1) := by
  decide

/-- C1 (amended): the resolver verifies only the first candidate in
directory order; it succeeds exactly when that first candidate's
credential verifies, and later candidates are never tried. -/
theorem c1_first_candidate_only (dir : List Account) (creds : CredStore)
    (plate code : Str) (u : Account) (rest : List Account)
    (hplate : trimStr plate ≠ []) (hcode : code.length = 4)
    (hcand : signInCandidates dir (toUpperStr (trimStr plate)) = u :: rest) :
    handleSignIn dir creds plate code =
      if verifyCred creds u.email code then (.ok u, 1)
      else (.err .invalidPasscode, 1) := by
  have husers :
      dir.filter (fun a => a.role == Role.user) ≠ [] := by
    intro hnil
    rw [signInCandidates, hnil] at hcand
    exact List.cons_ne_nil u rest hcand.symm
  have hfind :
      (dir.filter (fun a => a.role == Role.user)).find?
          (fun a => a.assignedVehicles.contains (toUpperStr (trimStr plate))) =
        some u := by
    rw [find?_eq_head?_filter]
    rw [signInCandidates] at hcand
    rw [hcand]
    rfl
  unfold handleSignIn
  rw [if_neg hplate, hcode, if_neg (show ¬ (4 ≠ 4) by simp), if_neg husers,
    hfind]

/-- Witness for the amended C1: one candidate, verifying credential. -/
theorem c1_first_candidate_only_witness :
    trimStr (ofStr "V-1") ≠ [] ∧ (ofStr "1234").length = 4 ∧
      signInCandidates [userTwo] (toUpperStr (trimStr (ofStr "V-1"))) =
        [userTwo] ∧
      handleSignIn [userTwo] credsTwo (ofStr "V-1") (ofStr "1234") =
        (if verifyCred credsTwo userTwo.email (ofStr "1234")
          then (.ok userTwo, 1) else (.err .invalidPasscode, 1)) :=
  ⟨by decide, by decide, by decide,
    c1_first_candidate_only [userTwo] credsTwo (ofStr "V-1") (ofStr "1234")
      userTwo [] (by decide) (by decide) (by decide)⟩

/-- C6: the claim that every empty candidate set yields
VehicleNotAssigned fails on the code: with no role=user accounts at
all the sign-in fails with a distinct no-users error (though still
with zero verification calls). -/
theorem c6_counterexample :
    signInCandidates [] (toUpperStr (trimStr (ofStr "ABC-123"))) = [] ∧
      handleSignIn [] credsTwo (ofStr "ABC-123") (ofStr "0000") =
        (.err .noUsersFound, 0) ∧
      SignInError.noUsersFound ≠ SignInError.vehicleNotAssigned := by
  decide

/-- C6 (amended): an empty candidate set always means zero
verification calls; the error is VehicleNotAssigned when at least one
role=user account exists and NoUsersFound when none does. -/
theorem c6_empty_candidates (dir : List Account) (creds : CredStore)
    (plate code : Str)
    (hplate : trimStr plate ≠ []) (hcode : code.length = 4)
    (hcand : signInCandidates dir (toUpperStr (trimStr plate)) = []) :
    (handleSignIn dir creds plate code).2 = 0 ∧
      (dir.filter (fun a => a.role == Role.user) ≠ [] →
        handleSignIn dir creds plate code = (.err .vehicleNotAssigned, 0)) ∧
      (dir.filter (fun a => a.role == Role.user) = [] →
        handleSignIn dir creds plate code = (.err .noUsersFound, 0)) := by
  have hfind :
      (dir.filter (fun a => a.role == Role.user)).find?
          (fun a => a.assignedVehicles.contains (toUpperStr (trimStr plate))) =
        none := by
    rw [find?_eq_head?_filter]
    rw [signInCandidates] at hcand
    rw [hcand]
    rfl
  by_cases husers : dir.filter (fun a => a.role == Role.user) = []
  · refine ⟨?_, fun hne => absurd husers hne, fun _ => ?_⟩ <;>
      · unfold handleSignIn
        rw [if_neg hplate, if_neg (by simp [hcode]), if_pos husers]
  · refine ⟨?_, fun _ => ?_, fun hnil => absurd hnil husers⟩ <;>
      · unfold handleSignIn
        rw [if_neg hplate, if_neg (by simp [hcode]), if_neg husers, hfind]

/-- Witness for the amended C6: a directory with one user account not
assigned the requested plate. -/
theorem c6_empty_candidates_witness :
    trimStr (ofStr "Z-9") ≠ [] ∧ (ofStr "0000").length = 4 ∧
      signInCandidates [userOne] (toUpperStr (trimStr (ofStr "Z-9"))) = [] ∧
      ((handleSignIn [userOne] credsTwo (ofStr "Z-9") (ofStr "0000")).2 = 0 ∧
        ([userOne].filter (fun a => a.role == Role.user) ≠ [] →
          handleSignIn [userOne] credsTwo (ofStr "Z-9") (ofStr "0000") =
            (.err .vehicleNotAssigned, 0)) ∧
        ([userOne].filter (fun a => a.role == Role.user) = [] →
          handleSignIn [userOne] credsTwo (ofStr "Z-9") (ofStr "0000") =
            (.err .noUsersFound, 0))) :=
  ⟨by decide, by decide, by decide,
    c6_empty_candidates [userOne] credsTwo (ofStr "Z-9") (ofStr "0000")
      (by decide) (by decide) (by decide)⟩

/-- The upserted row is a member of the upserted table. -/
theorem mem_upsertById (rows : List AppUser) (row : AppUser) :
    row ∈ upsertById rows row := by
  unfold upsertById
  by_cases h : rows.any (fun r => r.id == row.id)
  · rw [if_pos h]
    rcases List.any_eq_true.mp h with ⟨r, hr, hid⟩
    refine List.mem_map.mpr ⟨r, hr, ?_⟩
    rw [if_pos hid]
  · rw [if_neg h]
    exact List.mem_append_right rows (List.mem_singleton.mpr rfl)

/-- C4: when passcode validation and credential creation succeed but
the account insert fails, the handler deletes the just-created
credential: the final state has the original credential store (and the
original account table), so no orphaned credential survives. -/
theorem c4_create_compensates (s : ServerState) (callerId : Nat)
    (email password fullName vehicleCsv : Str)
    (hpw : isFourDigits password = true)
    (hdup : (s.app.find? (fun u => u.email == toLowerStr email)).isSome = false)
    (hauth : (s.auth.find? (fun u => u.email == toLowerStr email)).isSome = false)
    (hfresh : ∀ u ∈ s.auth, u.id ≠ s.nextId) :
    createUser s callerId email password fullName vehicleCsv false =
      (.error .insertFailed, ⟨s.auth, s.app, s.nextId + 1⟩) := by
  unfold createUser
  rw [if_neg (by simp [hpw]), if_neg (by simp [hdup]), if_neg (by simp [hauth]),
    if_neg Bool.false_ne_true]
  rw [List.filter_append]
  have h1 : s.auth.filter (fun u => decide (u.id ≠ s.nextId)) = s.auth :=
    List.filter_eq_self.mpr (fun u hu => by simp [hfresh u hu])
  have h2 : [(⟨s.nextId, toLowerStr email, password⟩ : AuthUser)].filter
      (fun u => decide (u.id ≠ s.nextId)) = [] := by simp
  rw [h1, h2, List.append_nil]

/-- Witness for C4 on the empty server state. -/
theorem c4_create_compensates_witness :
    isFourDigits (ofStr "1234") = true ∧
      (emptyServer.app.find?
          (fun u => u.email == toLowerStr (ofStr "x@y.com"))).isSome = false ∧
      (emptyServer.auth.find?
          (fun u => u.email == toLowerStr (ofStr "x@y.com"))).isSome = false ∧
      createUser emptyServer 7 (ofStr "x@y.com") (ofStr "1234") (ofStr "N")
          (ofStr "V-1") false =
        (.error .insertFailed,
          ⟨emptyServer.auth, emptyServer.app, emptyServer.nextId + 1⟩) :=
  ⟨by decide, by decide, by decide,
    c4_create_compensates emptyServer 7 (ofStr "x@y.com") (ofStr "1234")
      (ofStr "N") (ofStr "V-1") (by decide) (by decide) (by decide)
      (by intro u hu; simp [emptyServer] at hu)⟩

/-- C7: after a successful create, a second create with the same
normalized email fails with the duplicate-account error and leaves the
whole state, credential store included, untouched. -/
theorem c7_duplicate_no_mutation (s s1 : ServerState)
    (callerId1 callerId2 : Nat)
    (e1 p1 f1 c1 e2 p2 f2 c2 : Str) (ok2 : Bool)
    (hfirst : createUser s callerId1 e1 p1 f1 c1 true = (.ok (), s1))
    (hemail : toLowerStr e2 = toLowerStr e1)
    (hpw2 : isFourDigits p2 = true) :
    createUser s1 callerId2 e2 p2 f2 c2 ok2 =
      (.error .duplicateAccount, s1) := by
  unfold createUser at hfirst
  by_cases h1 : isFourDigits p1
  · rw [if_neg (by simp [h1])] at hfirst
    by_cases h2 : (s.app.find? (fun u => u.email == toLowerStr e1)).isSome
    · rw [if_pos h2] at hfirst
      exact absurd (congrArg Prod.fst hfirst) (by simp)
    · rw [if_neg h2] at hfirst
      by_cases h3 : (s.auth.find? (fun u => u.email == toLowerStr e1)).isSome
      · rw [if_pos h3] at hfirst
        exact absurd (congrArg Prod.fst hfirst) (by simp)
      · rw [if_neg h3, if_pos rfl] at hfirst
        have happ :
            upsertById s.app
                ⟨s.nextId, toLowerStr e1, f1, Role.user, vehiclesArray c1,
                  callerId1⟩ = s1.app :=
          congrArg (fun q => q.2.app) hfirst
        have hmem := mem_upsertById s.app
          ⟨s.nextId, toLowerStr e1, f1, Role.user, vehiclesArray c1, callerId1⟩
        rw [happ] at hmem
        have hdup :
            (s1.app.find? (fun u => u.email == toLowerStr e2)).isSome = true := by
          refine List.find?_isSome.mpr ⟨_, hmem, ?_⟩
          simp [hemail]
        unfold createUser
        rw [if_neg (by simp [hpw2]), if_pos hdup]
  · rw [if_pos (by simp [h1])] at hfirst
    exact absurd (congrArg Prod.fst hfirst) (by simp)

/-- Witness for C7: create x@y.com twice on the empty server. -/
theorem c7_duplicate_no_mutation_witness :
    createUser emptyServer 7 (ofStr "x@y.com") (ofStr "1234") (ofStr "N")
        (ofStr "V-1") true = (.ok (), serverAfterFirst) ∧
      toLowerStr (ofStr "X@Y.com") = toLowerStr (ofStr "x@y.com") ∧
      isFourDigits (ofStr "5678") = true ∧
      createUser serverAfterFirst 8 (ofStr "X@Y.com") (ofStr "5678")
          (ofStr "M") (ofStr "W-2") true =
        (.error .duplicateAccount, serverAfterFirst) :=
  ⟨by decide, by decide, by decide,
    c7_duplicate_no_mutation emptyServer serverAfterFirst 7 8
      (ofStr "x@y.com") (ofStr "1234") (ofStr "N") (ofStr "V-1")
      (ofStr "X@Y.com") (ofStr "5678") (ofStr "M") (ofStr "W-2") true
      (by decide) (by decide) (by decide)⟩

/-- C10: the create path only ever inserts role=user rows, so the set
of admin accounts is unchanged by any createUser call (for any insert
verdict), as long as the minted identity is fresh. -/
theorem c10_create_preserves_admins (s : ServerState) (callerId : Nat)
    (email password fullName vehicleCsv : Str) (insertOk : Bool)
    (hfresh : ∀ u ∈ s.app, u.id ≠ s.nextId) :
    adminAccounts
        (createUser s callerId email password fullName vehicleCsv insertOk).2 =
      adminAccounts s := by
  unfold createUser
  by_cases h1 : isFourDigits password
  swap
  · rw [if_pos (by simp [h1])]
  · rw [if_neg (by simp [h1])]
    by_cases h2 : (s.app.find? (fun u => u.email == toLowerStr email)).isSome
    · rw [if_pos h2]
    · rw [if_neg h2]
      by_cases h3 :
          (s.auth.find? (fun u => u.email == toLowerStr email)).isSome
      · rw [if_pos h3]
      · rw [if_neg h3]
        cases insertOk with
        | false =>
          rw [if_neg Bool.false_ne_true]
          rfl
        | true =>
          rw [if_pos rfl]
          unfold adminAccounts upsertById
          have hany : s.app.any (fun r => r.id == s.nextId) = false :=
            List.any_eq_false.mpr (fun r hr => by simp [hfresh r hr])
          rw [if_neg (by simp [hany])]
          rw [List.filter_append]
          simp

/-- Witness for C10 on the empty server state. -/
theorem c10_create_preserves_admins_witness :
    adminAccounts
        (createUser emptyServer 7 (ofStr "x@y.com") (ofStr "1234") (ofStr "N")
            (ofStr "V-1") true).2 =
      adminAccounts emptyServer :=
  c10_create_preserves_admins emptyServer 7 (ofStr "x@y.com") (ofStr "1234")
    (ofStr "N") (ofStr "V-1") true (by intro u hu; simp [emptyServer] at hu)

/-- Inserting is, up to permutation, consing. -/
theorem insertSorted_perm {α : Type} (lt : α → α → Bool) (x : α)
    (l : List α) : List.Perm (insertSorted lt x l) (x :: l) := by
  induction l with
  | nil => exact List.Perm.refl _
  | cons y ys ih =>
    unfold insertSorted
    by_cases h : lt x y
    · rw [if_pos h]
    · rw [if_neg h]
      exact (ih.cons y).trans (List.Perm.swap x y ys)

/-- Membership in an insertion. -/
theorem mem_insertSorted {α : Type} (lt : α → α → Bool) (x z : α)
    (l : List α) : z ∈ insertSorted lt x l ↔ z = x ∨ z ∈ l := by
  rw [(insertSorted_perm lt x l).mem_iff, List.mem_cons]

/-- The fold underlying `stableSort` permutes its input. -/
theorem stableSort_fold_perm {α : Type} (lt : α → α → Bool)
    (l acc : List α) :
    List.Perm (l.foldl (fun acc x => insertSorted lt x acc) acc) (acc ++ l) := by
  induction l generalizing acc with
  | nil => simp
  | cons x xs ih =>
    rw [List.foldl_cons]
    refine (ih (insertSorted lt x acc)).trans ?_
    refine (List.Perm.append_right xs ((insertSorted_perm lt x acc))).trans ?_
    exact List.perm_middle.symm

/-- Sorting permutes. -/
theorem stableSort_perm {α : Type} (lt : α → α → Bool) (l : List α) :
    List.Perm (stableSort lt l) l := by
  have := stableSort_fold_perm lt l []
  simpa [stableSort] using this

/-- Inserting into a list sorted for `lt` keeps it sorted, for any
comparator that is asymmetric and compatible in the sense below. -/
theorem insertSorted_pairwise {α : Type} (lt : α → α → Bool)
    (hasym : ∀ a b, lt a b = true → lt b a = false)
    (hcomp : ∀ x y z, lt x y = true → lt z y = false → lt z x = false)
    (x : α) (l : List α)
    (hl : l.Pairwise (fun a b => lt b a = false)) :
    (insertSorted lt x l).Pairwise (fun a b => lt b a = false) := by
  induction l with
  | nil => simp [insertSorted]
  | cons y ys ih =>
    rw [List.pairwise_cons] at hl
    obtain ⟨hy, hys⟩ := hl
    unfold insertSorted
    by_cases h : lt x y
    · rw [if_pos h]
      refine List.pairwise_cons.mpr ⟨?_, List.pairwise_cons.mpr ⟨hy, hys⟩⟩
      intro z hz
      rcases List.mem_cons.mp hz with hzy | hzys
      · subst hzy
        exact hasym x z h
      · exact hcomp x y z h (hy z hzys)
    · rw [if_neg h]
      refine List.pairwise_cons.mpr ⟨?_, ih hys⟩
      intro z hz
      rcases (mem_insertSorted lt x z ys).mp hz with hzx | hzys
      · subst hzx
        exact Bool.eq_false_iff.mpr h
      · exact hy z hzys

/-- The sort output is pairwise ordered. -/
theorem stableSort_pairwise {α : Type} (lt : α → α → Bool)
    (hasym : ∀ a b, lt a b = true → lt b a = false)
    (hcomp : ∀ x y z, lt x y = true → lt z y = false → lt z x = false)
    (l : List α) :
    (stableSort lt l).Pairwise (fun a b => lt b a = false) := by
  have aux : ∀ (m acc : List α),
      acc.Pairwise (fun a b => lt b a = false) →
        (m.foldl (fun acc x => insertSorted lt x acc) acc).Pairwise
          (fun a b => lt b a = false) := by
    intro m
    induction m with
    | nil => intro acc hacc; simpa using hacc
    | cons x xs ih =>
      intro acc hacc
      rw [List.foldl_cons]
      exact ih _ (insertSorted_pairwise lt hasym hcomp x acc hacc)
  exact aux l [] (by simp)

/-- `strLt` is asymmetric. -/
theorem strLt_asymm : ∀ a b : Str, strLt a b = true → strLt b a = false
  | [], [] => by simp [strLt]
  | [], _ :: _ => by intro _; simp [strLt]
  | _ :: _, [] => by simp [strLt]
  | c :: s, d :: t => by
    intro h
    unfold strLt at h ⊢
    by_cases hcd : c < d
    · rw [if_neg (asymm hcd), if_pos hcd]
    · rw [if_neg hcd] at h
      by_cases hdc : d < c
      · rw [if_pos hdc] at h
        exact absurd h (by simp)
      · rw [if_neg hdc] at h
        rw [if_neg hdc, if_neg hcd]
        exact strLt_asymm s t h

/-- `strLt` is transitive. -/
theorem strLt_trans : ∀ a b c : Str,
    strLt a b = true → strLt b c = true → strLt a c = true
  | _, [], [] => by simp [strLt]
  | _, _ :: _, [] => by intro _ h; simp [strLt] at h
  | [], _, _ :: _ => by intro _ _; simp [strLt]
  | c :: s, [], _ :: _ => by intro h; simp [strLt] at h
  | x :: s, y :: t, z :: w => by
    intro h1 h2
    unfold strLt at h1 h2 ⊢
    by_cases hxy : x < y
    · by_cases hyz : y < z
      · rw [if_pos (lt_trans hxy hyz)]
      · rw [if_neg hyz] at h2
        by_cases hzy : z < y
        · rw [if_pos hzy] at h2
          exact absurd h2 (by simp)
        · have : y = z := le_antisymm (not_lt.mp hzy) (not_lt.mp hyz)
          rw [if_pos (this ▸ hxy)]
    · rw [if_neg hxy] at h1
      by_cases hyx : y < x
      · rw [if_pos hyx] at h1
        exact absurd h1 (by simp)
      · rw [if_neg hyx] at h1
        have hxy2 : x = y := le_antisymm (not_lt.mp hyx) (not_lt.mp hxy)
        by_cases hyz : y < z
        · rw [if_pos (hxy2 ▸ hyz)]
        · rw [if_neg hyz] at h2
          by_cases hzy : z < y
          · rw [if_pos hzy] at h2
            exact absurd h2 (by simp)
          · rw [if_neg hzy] at h2
            rw [if_neg (hxy2 ▸ hyz), if_neg (hxy2 ▸ hzy)]
            exact strLt_trans s t w h1 h2

/-- Two strings neither of which is below the other are equal. -/
theorem strLt_eq_of_incomp : ∀ a b : Str,
    strLt a b = false → strLt b a = false → a = b
  | [], [] => by intro _ _; rfl
  | [], _ :: _ => by intro h _; simp [strLt] at h
  | _ :: _, [] => by intro _ h; simp [strLt] at h
  | c :: s, d :: t => by
    intro h1 h2
    unfold strLt at h1 h2
    by_cases hcd : c < d
    · rw [if_pos hcd] at h1
      exact absurd h1 (by simp)
    · by_cases hdc : d < c
      · rw [if_pos hdc] at h2
        exact absurd h2 (by simp)
      · rw [if_neg hcd, if_neg hdc] at h1
        rw [if_neg hdc, if_neg hcd] at h2
        have hce : c = d := le_antisymm (not_lt.mp hdc) (not_lt.mp hcd)
        rw [hce, strLt_eq_of_incomp s t h1 h2]

/-- The date-descending sort of the admin panel is canonical on lists
with pairwise-distinct fill dates: any two permutations of the same
records sort to the same list. -/
theorem stableSortRecords_canonical (rs rs' : List FuelRecord)
    (h : List.Perm rs rs')
    (hd : (rs.map (fun r => r.fillingDate)).Nodup) :
    stableSort (fun a b => b.fillingDate < a.fillingDate) rs =
      stableSort (fun a b => b.fillingDate < a.fillingDate) rs' := by
  have hasym : ∀ a b : FuelRecord,
      (decide (b.fillingDate < a.fillingDate)) = true →
        (decide (a.fillingDate < b.fillingDate)) = false := by
    intro a b hab
    simp only [decide_eq_true_eq] at hab
    simp only [decide_eq_false_iff_not]
    omega
  have hcomp : ∀ x y z : FuelRecord,
      (decide (y.fillingDate < x.fillingDate)) = true →
        (decide (y.fillingDate < z.fillingDate)) = false →
          (decide (x.fillingDate < z.fillingDate)) = false := by
    intro x y z h1 h2
    simp only [decide_eq_true_eq] at h1
    simp only [decide_eq_false_iff_not] at h2 ⊢
    omega
  have p1 : List.Perm
      (stableSort (fun a b => b.fillingDate < a.fillingDate) rs)
      (stableSort (fun a b => b.fillingDate < a.fillingDate) rs') :=
    ((stableSort_perm _ rs).trans h).trans (stableSort_perm _ rs').symm
  have hd' : (rs'.map (fun r => r.fillingDate)).Nodup :=
    ((h.map (fun r => r.fillingDate)).nodup_iff).mp hd
  have strict : ∀ (m : List FuelRecord),
      (m.map (fun r => r.fillingDate)).Nodup →
        (stableSort (fun a b => b.fillingDate < a.fillingDate) m).Pairwise
          (fun a b => b.fillingDate < a.fillingDate) := by
    intro m hm
    have hpair := stableSort_pairwise
      (fun a b => decide (b.fillingDate < a.fillingDate)) hasym hcomp m
    have hmap : ((stableSort (fun a b => b.fillingDate < a.fillingDate) m).map
        (fun r => r.fillingDate)).Nodup :=
      (((stableSort_perm _ m).map (fun r => r.fillingDate)).nodup_iff).mpr hm
    have hne := List.pairwise_map.mp hmap
    refine (hpair.and hne).imp ?_
    rintro a b ⟨h1, h2⟩
    simp only [decide_eq_false_iff_not] at h1
    omega
  haveI : IsAntisymm FuelRecord (fun a b => b.fillingDate < a.fillingDate) :=
    ⟨fun a b h1 h2 => absurd (lt_trans h1 h2) (lt_irrefl _)⟩
  exact List.eq_of_perm_of_sorted p1 (strict rs hd) (strict rs' hd')

/-- The plate-ascending sort of the grouped summaries is canonical on
lists with pairwise-distinct plates. -/
theorem stableSortGroups_canonical (gs gs' : List GroupedRecord)
    (h : List.Perm gs gs')
    (hp : (gs.map (fun g => g.plate)).Nodup) :
    stableSort (fun a b => strLt a.plate b.plate) gs =
      stableSort (fun a b => strLt a.plate b.plate) gs' := by
  have hasym : ∀ a b : GroupedRecord,
      strLt a.plate b.plate = true → strLt b.plate a.plate = false :=
    fun a b hx => strLt_asymm _ _ hx
  have hcomp : ∀ x y z : GroupedRecord,
      strLt x.plate y.plate = true → strLt z.plate y.plate = false →
        strLt z.plate x.plate = false := by
    intro x y z h1 h2
    cases hzx : strLt z.plate x.plate with
    | false => rfl
    | true => exact absurd (strLt_trans _ _ _ hzx h1) (by simp [h2])
  have p1 : List.Perm
      (stableSort (fun a b => strLt a.plate b.plate) gs)
      (stableSort (fun a b => strLt a.plate b.plate) gs') :=
    ((stableSort_perm _ gs).trans h).trans (stableSort_perm _ gs').symm
  have hp' : (gs'.map (fun g => g.plate)).Nodup :=
    ((h.map (fun g => g.plate)).nodup_iff).mp hp
  have strict : ∀ (m : List GroupedRecord),
      (m.map (fun g => g.plate)).Nodup →
        (stableSort (fun a b => strLt a.plate b.plate) m).Pairwise
          (fun a b => strLt a.plate b.plate = true) := by
    intro m hm
    have hpair := stableSort_pairwise
      (fun a b : GroupedRecord => strLt a.plate b.plate) hasym hcomp m
    have hmap : ((stableSort (fun a b => strLt a.plate b.plate) m).map
        (fun g => g.plate)).Nodup :=
      (((stableSort_perm _ m).map (fun g => g.plate)).nodup_iff).mpr hm
    have hne := List.pairwise_map.mp hmap
    refine (hpair.and hne).imp ?_
    rintro a b ⟨h1, h2⟩
    cases hab : strLt a.plate b.plate with
    | true => rfl
    | false => exact absurd (strLt_eq_of_incomp _ _ hab h1) h2
  haveI : IsAntisymm GroupedRecord
      (fun a b => strLt a.plate b.plate = true) :=
    ⟨fun a b h1 h2 => absurd h2 (by simp [strLt_asymm _ _ h1])⟩
  exact List.eq_of_perm_of_sorted p1 (strict gs hp) (strict gs' hp')

/-- Membership through the fold underlying `dedupFirst`. -/
theorem dedupFirst_fold_mem (m : List Str) : ∀ (acc : List Str) (x : Str),
    (x ∈ m.foldl
        (fun acc p => if acc.contains p then acc else acc ++ [p]) acc) ↔
      x ∈ acc ∨ x ∈ m := by
  induction m with
  | nil => intro acc x; simp
  | cons p ps ih =>
    intro acc x
    rw [List.foldl_cons, ih]
    have hstep : (x ∈ if acc.contains p then acc else acc ++ [p]) ↔
        x ∈ acc ∨ x = p := by
      by_cases hc : acc.contains p = true
      · rw [if_pos hc]
        have hp : p ∈ acc := by
          simpa [List.contains, List.elem_iff] using hc
        constructor
        · exact Or.inl
        · rintro (h | rfl)
          · exact h
          · exact hp
      · rw [if_neg hc]
        simp
    rw [hstep]
    simp only [List.mem_cons]
    tauto

/-- `dedupFirst` keeps exactly the members of its input. -/
theorem dedupFirst_mem (m : List Str) (x : Str) :
    x ∈ dedupFirst m ↔ x ∈ m := by
  unfold dedupFirst
  rw [dedupFirst_fold_mem]
  simp

/-- The fold underlying `dedupFirst` preserves `Nodup`. -/
theorem dedupFirst_fold_nodup (m : List Str) : ∀ (acc : List Str),
    acc.Nodup →
      (m.foldl
        (fun acc p => if acc.contains p then acc else acc ++ [p]) acc).Nodup := by
  induction m with
  | nil => intro acc h; simpa using h
  | cons p ps ih =>
    intro acc hacc
    rw [List.foldl_cons]
    refine ih _ ?_
    by_cases hc : acc.contains p = true
    · rw [if_pos hc]
      exact hacc
    · rw [if_neg hc]
      have hp : p ∉ acc := by
        intro hmem
        exact hc (by simpa [List.contains, List.elem_iff] using hmem)
      refine List.nodup_append.mpr ⟨hacc, List.nodup_singleton p, ?_⟩
      intro x hx hxp
      rw [List.mem_singleton] at hxp
      exact hp (hxp ▸ hx)

/-- `dedupFirst` has no duplicates. -/
theorem dedupFirst_nodup (m : List Str) : (dedupFirst m).Nodup :=
  dedupFirst_fold_nodup m [] (List.nodup_nil)

/-- The grouping fold builds, in first-occurrence key order, the entry
`(p, all records of plate p in input order)` for each plate. -/
theorem groupPairs_eq (rs : List FuelRecord) :
    groupPairs rs =
      (dedupFirst (rs.map (fun r => r.plate))).map
        (fun p => (p, rs.filter (fun r => r.plate == p))) := by
  induction rs using List.reverseRecOn with
  | nil => rfl
  | append_singleton l r ih =>
    have hgp : groupPairs (l ++ [r]) = addToGroups (groupPairs l) r := by
      unfold groupPairs
      rw [List.foldl_append]
      rfl
    have hdf : dedupFirst ((l ++ [r]).map (fun x => x.plate)) =
        if (dedupFirst (l.map (fun x => x.plate))).contains r.plate
        then dedupFirst (l.map (fun x => x.plate))
        else dedupFirst (l.map (fun x => x.plate)) ++ [r.plate] := by
      unfold dedupFirst
      rw [List.map_append, List.foldl_append]
      rfl
    have hfil : ∀ p : Str, (l ++ [r]).filter (fun x => x.plate == p) =
        l.filter (fun x => x.plate == p) ++
          (if r.plate == p then [r] else []) := by
      intro p
      rw [List.filter_append]
      congr 1
      by_cases hp : (r.plate == p) = true
      · rw [if_pos hp]
        simp [List.filter_cons, hp]
      · rw [if_neg hp]
        simp [List.filter_cons, hp]
    rw [hgp, ih, hdf]
    by_cases hmem : r.plate ∈ dedupFirst (l.map (fun x => x.plate))
    · have hcon :
          (dedupFirst (l.map (fun x => x.plate))).contains r.plate = true := by
        simpa [List.contains, List.elem_iff] using hmem
      rw [if_pos hcon]
      unfold addToGroups
      have hany :
          ((dedupFirst (l.map (fun x => x.plate))).map
              (fun p => (p, l.filter (fun x => x.plate == p)))).any
            (fun g => g.1 == r.plate) = true := by
        refine List.any_eq_true.mpr
          ⟨(r.plate, l.filter (fun x => x.plate == r.plate)),
            List.mem_map.mpr ⟨r.plate, hmem, rfl⟩, by simp⟩
      rw [if_pos hany, List.map_map]
      refine List.map_congr_left ?_
      intro p hp
      simp only [Function.comp]
      rw [hfil p]
      by_cases hpr : p = r.plate
      · subst hpr
        simp
      · have h1 : (p == r.plate) = false := by simp [hpr]
        have h2 : (r.plate == p) = false := by simp [Ne.symm hpr]
        simp [h1, h2]
    · rw [if_neg (by simpa [List.contains, List.elem_iff] using hmem)]
      unfold addToGroups
      have hany :
          ((dedupFirst (l.map (fun x => x.plate))).map
              (fun p => (p, l.filter (fun x => x.plate == p)))).any
            (fun g => g.1 == r.plate) = false := by
        refine List.any_eq_false.mpr ?_
        intro g hg
        rcases List.mem_map.mp hg with ⟨p, hpK, rfl⟩
        simp only [beq_iff_eq]
        intro hpe
        exact hmem (hpe ▸ hpK)
      rw [if_neg (by simp [hany]), List.map_append]
      congr 1
      · refine List.map_congr_left ?_
        intro p hpK
        rw [hfil p]
        have h2 : (r.plate == p) = false := by
          simp only [beq_eq_false_iff_ne, ne_eq]
          intro he
          exact hmem (he ▸ hpK)
        simp [h2]
      · have hnil : l.filter (fun x => x.plate == r.plate) = [] := by
          refine List.filter_eq_nil_iff.mpr ?_
          intro x hx hbe
          apply hmem
          rw [dedupFirst_mem]
          exact List.mem_map.mpr ⟨x, hx, by simpa using hbe⟩
        rw [List.map_cons, List.map_nil, hfil r.plate]
        simp [hnil]

/-- The liters fold is the sum. -/
theorem foldl_add_liters (rs : List FuelRecord) : ∀ (a : ℚ),
    rs.foldl (fun sum r => sum + r.liters) a =
      a + (rs.map (fun r => r.liters)).sum := by
  induction rs with
  | nil => intro a; simp
  | cons r rest ih =>
    intro a
    rw [List.foldl_cons, ih, List.map_cons, List.sum_cons]
    ring

/-- One plate's summary depends only on the multiset of its records,
as long as their fill dates are pairwise distinct. -/
theorem mkGroup_congr (p : Str) (rs rs' : List FuelRecord)
    (h : List.Perm rs rs')
    (hd : (rs.map (fun r => r.fillingDate)).Nodup) :
    mkGroup p rs = mkGroup p rs' := by
  have hsort := stableSortRecords_canonical rs rs' h hd
  have hsum : rs.foldl (fun sum r => sum + r.liters) 0 =
      rs'.foldl (fun sum r => sum + r.liters) 0 := by
    rw [foldl_add_liters, foldl_add_liters,
      (h.map (fun r => r.liters)).sum_eq]
  unfold mkGroup
  rw [hsort, hsum, h.length_eq]

/-- A plate absent from the input filters to nothing. -/
theorem filter_plate_eq_nil (l : List FuelRecord) (p : Str)
    (hp : p ∉ l.map (fun r => r.plate)) :
    l.filter (fun r => r.plate == p) = [] := by
  refine List.filter_eq_nil_iff.mpr ?_
  intro x hx hbe
  exact hp (List.mem_map.mpr ⟨x, hx, by simpa using hbe⟩)

/-- C3 (amended): `groupRecordsByPlate` is permutation-invariant on
inputs whose fill dates are pairwise distinct within each plate: the
whole output, partition order and within-partition order included, is
the same for any input ordering. -/
theorem c3_perm_invariant (l l' : List FuelRecord)
    (hperm : List.Perm l l')
    (hd : ∀ p ∈ l.map (fun r => r.plate),
      ((l.filter (fun r => r.plate == p)).map
        (fun r => r.fillingDate)).Nodup) :
    groupRecordsByPlate l = groupRecordsByPlate l' := by
  have hdAll : ∀ p : Str,
      ((l.filter (fun r => r.plate == p)).map
        (fun r => r.fillingDate)).Nodup := by
    intro p
    by_cases hp : p ∈ l.map (fun r => r.plate)
    · exact hd p hp
    · rw [filter_plate_eq_nil l p hp]
      simp
  have hK : List.Perm (dedupFirst (l.map (fun r => r.plate)))
      (dedupFirst (l'.map (fun r => r.plate))) := by
    refine List.perm_of_nodup_nodup_toFinset_eq
      (dedupFirst_nodup _) (dedupFirst_nodup _) ?_
    ext x
    simp only [List.mem_toFinset, dedupFirst_mem]
    exact (hperm.map (fun r => r.plate)).mem_iff
  have hF : ∀ p : Str,
      mkGroup p (l.filter (fun r => r.plate == p)) =
        mkGroup p (l'.filter (fun r => r.plate == p)) := by
    intro p
    exact mkGroup_congr p _ _ (hperm.filter _) (hdAll p)
  have hent : List.Perm
      ((groupPairs l).map (fun g => mkGroup g.1 g.2))
      ((groupPairs l').map (fun g => mkGroup g.1 g.2)) := by
    rw [groupPairs_eq l, groupPairs_eq l', List.map_map, List.map_map]
    have e1 : (dedupFirst (l'.map (fun r => r.plate))).map
        ((fun g : Str × List FuelRecord => mkGroup g.1 g.2) ∘
          (fun p => (p, l'.filter (fun r => r.plate == p)))) =
      (dedupFirst (l'.map (fun r => r.plate))).map
        ((fun g : Str × List FuelRecord => mkGroup g.1 g.2) ∘
          (fun p => (p, l.filter (fun r => r.plate == p)))) := by
      refine List.map_congr_left ?_
      intro p hp
      simp only [Function.comp]
      exact (hF p).symm
    rw [e1]
    exact hK.map _
  have hplates : (((groupPairs l).map (fun g => mkGroup g.1 g.2)).map
      (fun g => g.plate)).Nodup := by
    rw [groupPairs_eq l, List.map_map, List.map_map]
    have hid : (((fun g : GroupedRecord => g.plate) ∘
        (fun g : Str × List FuelRecord => mkGroup g.1 g.2)) ∘
          (fun p => (p, l.filter (fun r => r.plate == p)))) =
        fun p : Str => p := by
      funext p
      rfl
    rw [hid]
    simpa using dedupFirst_nodup (l.map (fun r => r.plate))
  unfold groupRecordsByPlate
  exact stableSortGroups_canonical _ _ hent hplates

/-- C3: the claim of unconditional order-independence fails on the
code: two same-plate records sharing a fill date keep their input
order through the stable date sort, so swapping them changes the
output's within-partition order. -/
theorem c3_counterexample :
    List.Perm [recTieOne, recTieTwo] [recTieTwo, recTieOne] ∧
      groupRecordsByPlate [recTieOne, recTieTwo] ≠
        groupRecordsByPlate [recTieTwo, recTieOne] := by
  refine ⟨by decide, fun h => ?_⟩
  have hproj := congrArg
    (fun gs => gs.map (fun g => g.records.map (fun r => r.id))) h
  exact absurd hproj (by decide)

/-- Witness for the amended C3 at a three-record input and one of its
permutations. -/
theorem c3_perm_invariant_witness :
    List.Perm [recA1, recA2, recB] [recB, recA2, recA1] ∧
      (∀ p ∈ [recA1, recA2, recB].map (fun r => r.plate),
        (([recA1, recA2, recB].filter (fun r => r.plate == p)).map
          (fun r => r.fillingDate)).Nodup) ∧
      groupRecordsByPlate [recA1, recA2, recB] =
        groupRecordsByPlate [recB, recA2, recA1] :=
  ⟨by decide, by decide,
    c3_perm_invariant [recA1, recA2, recB] [recB, recA2, recA1]
      (by decide) (by decide)⟩
